import Mathlib

/-!
# Verification of the img-compress compression orchestration subsystem

Shallow embedding of the compression core of the repository:

* `src/services/wasmCodecLoader.ts` — format→codec resolution, dynamic codec
  loading with retry ceiling and in-flight-load deduplication;
* `src/services/smartCompressor.ts` — WASM-preferred / canvas-fallback
  compression strategy, target-dimension computation, quality translation,
  MIME resolution, progress milestones;
* the worker-pool scheduler (`CompressionService`) — idle-worker lookup,
  queueing, and batch submission.

JavaScript numbers are modelled by `ℚ` (every value arising in the verified
computations is exactly representable, including the single half-integer
rounding case of the AVIF quality translation), `Math.round` by
`⌊x + 1/2⌋`, and `Map`s by association lists.  Asynchronous effects
(module loading, decoding, encoding) are modelled by explicit outcome
oracles; the event-loop atomicity of the synchronous prefix of an `async`
function is used to model concurrent `getCodec` calls as a sequence of
atomic steps.
-/

namespace ImgCompress

/-! ## Data model (`src/types/image.ts`, `smartCompressor.ts`) -/

/-- `CompressionSettings` from `src/types/image.ts`.  The `format` field is a
string: at runtime the codec layer accepts arbitrary strings (aliases such as
`"jpg"` are resolved case-insensitively by `getCodecName`). -/
structure CompressionSettings where
  quality : ℚ
  maxWidth : Option ℚ
  maxHeight : Option ℚ
  format : String
  removeMetadata : Bool
deriving DecidableEq, Repr

/-- `SmartCompressorOptions` from `smartCompressor.ts`. -/
structure SmartCompressorOptions where
  preferWASM : Bool
  enablePreload : Bool
  maxWASMSize : Nat
  fallbackToCanvas : Bool
deriving DecidableEq, Repr

/-- The constructor defaults of `SmartCompressor` (lines 30-36). -/
def defaultCompressorOptions : SmartCompressorOptions :=
  { preferWASM := true
    enablePreload := true
    maxWASMSize := 50 * 1024 * 1024
    fallbackToCanvas := true }

/-! ## JavaScript numeric and truthiness helpers -/

/-- JavaScript `Math.round`: round half toward positive infinity. -/
def jsRound (q : ℚ) : ℤ := ⌊q + 1 / 2⌋

/-- JavaScript truthiness of an optional number: `undefined` and `0` are
falsy, every other number is truthy. -/
def jsTruthy : Option ℚ → Bool
  | none => false
  | some v => v != 0

/-! ## Codec configuration table (`wasmCodecLoader.ts` lines 28-105)

Each codec's loader and default-options object live in external `@jsquash`
packages; here a codec is identified by its key in `CODEC_CONFIGS` and we
record only the data the verified operations read: the accepted format
aliases. -/

/-- The keys and `formats` lists of `CODEC_CONFIGS`, in declaration order. -/
def CODEC_CONFIGS : List (String × List String) :=
  [("mozjpeg", ["jpeg", "jpg"]),
   ("oxipng", ["png"]),
   ("webp", ["webp"]),
   ("avif", ["avif"])]

/-- JavaScript `String.prototype.toLowerCase`: lower-case each character.
Extensionally equal to `String.toLower` (which maps `Char.toLower` over the
string); stated through the character list so that concrete instances reduce
in the kernel. -/
def jsToLower (s : String) : String := String.mk (s.data.map Char.toLower)

/-- `WASMCodecLoader.getCodecName` (lines 157-165): lower-case the format and
return the first codec whose `formats` list contains it. -/
def getCodecName (format : String) : Option String :=
  let normalizedFormat := jsToLower format
  (CODEC_CONFIGS.find? (fun config => config.2.contains normalizedFormat)).map (·.1)

/-- `WASMCodecLoader.isFormatSupported` (lines 244-246). -/
def isFormatSupported (format : String) : Bool :=
  (getCodecName format).isSome

/-! ## Target-dimension computation (`smartCompressor.ts` lines 291-318) -/

/-- `SmartCompressor.calculateDimensions`: if neither bound is truthy, return
the dimensions unchanged; otherwise scale to `maxWidth` when exceeded, then to
`maxHeight` when still exceeded, and round each final dimension independently
with `Math.round`. -/
def calculateDimensions (originalWidth originalHeight : ℚ)
    (maxWidth maxHeight : Option ℚ) : ℚ × ℚ :=
  if !(jsTruthy maxWidth) && !(jsTruthy maxHeight) then
    (originalWidth, originalHeight)
  else
    let newWidth := originalWidth
    let newHeight := originalHeight
    let step1 : ℚ × ℚ :=
      if jsTruthy maxWidth && decide (originalWidth > maxWidth.getD 0) then
        (maxWidth.getD 0, originalHeight * maxWidth.getD 0 / originalWidth)
      else
        (newWidth, newHeight)
    let step2 : ℚ × ℚ :=
      if jsTruthy maxHeight && decide (step1.2 > maxHeight.getD 0) then
        (step1.1 * maxHeight.getD 0 / step1.2, maxHeight.getD 0)
      else
        step1
    ((jsRound step2.1 : ℚ), (jsRound step2.2 : ℚ))

/-! ## MIME resolution for the canvas path (`smartCompressor.ts` 265-279) -/

/-- `SmartCompressor.getMimeType`: switch with an `image/jpeg` default case. -/
def getMimeType (format : String) : String :=
  if format == "jpeg" || format == "jpg" then "image/jpeg"
  else if format == "png" then "image/png"
  else if format == "webp" then "image/webp"
  else if format == "avif" then "image/avif"
  else "image/jpeg"

/-- The MIME type actually passed to `convertToBlob` by `compressWithCanvas`
(lines 179-186): `getMimeType`, with `avif` overridden to `image/webp`. -/
def canvasMimeType (format : String) : String :=
  if format == "avif" then "image/webp" else getMimeType format

/-! ## WASM encoder option translation (`smartCompressor.ts` 237-260)

The per-codec default-options objects come from the external `@jsquash`
`meta.js` modules; we record the two knobs `prepareWASMOptions` writes
(`quality`, `cqLevel`) and parametrise over the defaults. -/

/-- The two generic-quality knobs of a codec options object.  Fields the
translation never touches are irrelevant to the verified statements and are
omitted. -/
structure WASMOptions where
  quality : Option ℚ
  cqLevel : Option ℤ
deriving DecidableEq, Repr

/-- `WASMCodecLoader.getDefaultOptions` (lines 231-239): `{}` when the format
resolves to no codec, otherwise a copy of the codec's default options, here
supplied by the external-library table `codecDefaults`. -/
def getDefaultOptions (codecDefaults : String → WASMOptions) (format : String) :
    WASMOptions :=
  match getCodecName format with
  | none => { quality := none, cqLevel := none }
  | some codecName => codecDefaults codecName

/-- `SmartCompressor.prepareWASMOptions`: start from the codec defaults and
switch on the exact `settings.format` string; `'jpeg'`/`'webp'` overwrite
`quality`, `'avif'` sets `cqLevel := round((100 − quality) × 0.63)`, `'png'`
changes nothing, and any other string (there is no `default:` case) falls
through with the defaults untouched. -/
def prepareWASMOptions (codecDefaults : String → WASMOptions)
    (settings : CompressionSettings) : WASMOptions :=
  let options := getDefaultOptions codecDefaults settings.format
  if settings.format == "jpeg" then
    { options with quality := some settings.quality }
  else if settings.format == "webp" then
    { options with quality := some settings.quality }
  else if settings.format == "avif" then
    { options with cqLevel := some (jsRound ((100 - settings.quality) * (63 / 100))) }
  else
    options

/-- A concrete stand-in for the external `@jsquash` default options (MozJPEG's
documented default quality is 75); used only to instantiate statements that
hold for every choice of defaults. -/
def sampleCodecDefaults : String → WASMOptions :=
  fun _ => { quality := some 75, cqLevel := none }

/-! ## The compression strategy (`smartCompressor.ts` 46-232)

The asynchronous environment is an oracle: whether the codec module loads,
whether `createImageBitmap` decodes the input, whether the encoder and the
canvas `convertToBlob` succeed, the decoded bitmap dimensions, and the byte
lengths the encoders produce. -/

/-- Outcomes of the asynchronous operations `compress` performs, together
with the decoded bitmap's dimensions and the encoders' output sizes. -/
structure CompressEnv where
  codecLoads : Bool
  decodeOk : Bool
  encodeOk : Bool
  convertOk : Bool
  imgWidth : ℚ
  imgHeight : ℚ
  wasmEncodedSize : Nat
  canvasEncodedSize : Nat
deriving DecidableEq, Repr

/-- The errors the two compression paths can raise. -/
inductive CompressError where
  | codecUnavailable (format : String)
  | decodeFailed
  | encodeFailed
  | convertFailed
deriving DecidableEq, Repr

/-- `CompressionResult` from `smartCompressor.ts` (lines 9-16); the encoded
bytes are represented by their length. -/
structure CompressionResult where
  originalSize : Nat
  compressedSize : Nat
  width : ℚ
  height : ℚ
  method : String
  codec : Option String
deriving DecidableEq, Repr

/-- `SmartCompressor.shouldUseWASM` (lines 214-232). -/
def shouldUseWASM (opts : SmartCompressorOptions) (byteLength : Nat)
    (settings : CompressionSettings) : Bool :=
  if !opts.preferWASM then false
  else if byteLength > opts.maxWASMSize then false
  else if !(isFormatSupported settings.format) then false
  else true

/-- `SmartCompressor.compressWithWASM` (lines 77-147): the emitted progress
milestones paired with the outcome.  Failure points, in source order:
`getCodec` returning `null` (after emitting 15), decode (after 25), and
`codec.encode` (after 80). -/
def compressWithWASM (env : CompressEnv) (originalSize : Nat)
    (settings : CompressionSettings) :
    List ℕ × Except CompressError CompressionResult :=
  if !((getCodecName settings.format).isSome && env.codecLoads) then
    ([15], .error (.codecUnavailable settings.format))
  else if !env.decodeOk then
    ([15, 25], .error .decodeFailed)
  else
    let dims := calculateDimensions env.imgWidth env.imgHeight
      settings.maxWidth settings.maxHeight
    if !env.encodeOk then
      ([15, 25, 35, 45, 60, 70, 80], .error .encodeFailed)
    else
      ([15, 25, 35, 45, 60, 70, 80, 95, 100],
       .ok { originalSize := originalSize
             compressedSize := env.wasmEncodedSize
             width := dims.1
             height := dims.2
             method := "wasm"
             codec := some ((getCodecName settings.format).getD settings.format) })

/-- `SmartCompressor.compressWithCanvas` (lines 152-209): decode (failure
after emitting 15), resize, draw, serialize via `convertToBlob` at
`canvasMimeType settings.format` (failure after 90).  The result records no
format or codec. -/
def compressWithCanvas (env : CompressEnv) (originalSize : Nat)
    (settings : CompressionSettings) :
    List ℕ × Except CompressError CompressionResult :=
  if !env.decodeOk then
    ([15], .error .decodeFailed)
  else
    let dims := calculateDimensions env.imgWidth env.imgHeight
      settings.maxWidth settings.maxHeight
    if !env.convertOk then
      ([15, 30, 50, 70, 90], .error .convertFailed)
    else
      ([15, 30, 50, 70, 90, 100],
       .ok { originalSize := originalSize
             compressedSize := env.canvasEncodedSize
             width := dims.1
             height := dims.2
             method := "canvas"
             codec := none })

/-- `SmartCompressor.compress` (lines 46-72): emit 5; when `shouldUseWASM`,
emit 10 and try the WASM path, catching its exception — rethrown when
`fallbackToCanvas` is disabled, otherwise falling through to the canvas path;
when not `shouldUseWASM`, run the canvas path directly.  Returns the full
progress trace of one invocation with the outcome. -/
def compress (opts : SmartCompressorOptions) (env : CompressEnv)
    (byteLength : Nat) (settings : CompressionSettings) :
    List ℕ × Except CompressError CompressionResult :=
  if shouldUseWASM opts byteLength settings then
    let wasm := compressWithWASM env byteLength settings
    match wasm.2 with
    | .ok result => (5 :: 10 :: wasm.1, .ok result)
    | .error e =>
      if !opts.fallbackToCanvas then
        (5 :: 10 :: wasm.1, .error e)
      else
        let canvas := compressWithCanvas env byteLength settings
        (5 :: 10 :: (wasm.1 ++ canvas.1), canvas.2)
  else
    let canvas := compressWithCanvas env byteLength settings
    (5 :: canvas.1, canvas.2)

/-! ## Codec loader state (`wasmCodecLoader.ts` 107-264)

`loadedCodecs` and `loadAttempts` are `Map`s keyed by codec name, modelled as
association lists; a loaded module itself is abstracted to the presence of
its name.  `maxRetries` is the class field set to 2. -/

/-- Update an association list in place, appending when the key is absent
(the behaviour of `Map.set`). -/
def assocSet (m : List (String × ℕ)) (k : String) (v : ℕ) : List (String × ℕ) :=
  match m with
  | [] => [(k, v)]
  | (k', v') :: rest =>
    if k' == k then (k, v) :: rest else (k', v') :: assocSet rest k v

/-- The fields of `WASMCodecLoader` read by a sequential `getCodec` call
(between top-level calls `loadingPromises` is empty, so it is omitted here;
the concurrent model below tracks it). -/
structure LoaderState where
  loadedCodecs : List String
  loadAttempts : List (String × ℕ)
  maxRetries : ℕ
deriving DecidableEq, Repr

/-- A freshly constructed `WASMCodecLoader` (`maxRetries = 2`). -/
def initLoaderState : LoaderState :=
  { loadedCodecs := [], loadAttempts := [], maxRetries := 2 }

/-- What `config.loader()` does when it is actually invoked. -/
inductive LoadOutcome where
  | success
  | failure
deriving DecidableEq, Repr

/-- `WASMCodecLoader.loadCodec` (lines 177-207): unknown codec and
retry-ceiling checks throw without invoking the loader; otherwise the attempt
counter is incremented and the loader invoked with the oracle outcome.
Returns (outcome, new state, whether `config.loader()` was invoked). -/
def loadCodec (s : LoaderState) (codecName : String) (outcome : LoadOutcome) :
    Except String Unit × LoaderState × Bool :=
  if !(CODEC_CONFIGS.any (fun config => config.1 == codecName)) then
    (.error ("Unknown codec: " ++ codecName), s, false)
  else
    let attempts := ((s.loadAttempts.lookup codecName).getD 0)
    if attempts ≥ s.maxRetries then
      (.error ("Max retry attempts reached for codec: " ++ codecName), s, false)
    else
      let s := { s with loadAttempts := assocSet s.loadAttempts codecName (attempts + 1) }
      match outcome with
      | .success => (.ok (), s, true)
      | .failure => (.error "load failed", s, true)

/-- A sequential `WASMCodecLoader.getCodec` call (lines 116-152): resolve the
codec name (`null` when unsupported), return the cached module when loaded,
otherwise run `loadCodec`, caching on success and returning `null` — never
throwing — on failure.  Returns (result, new state, whether the underlying
loader was invoked). -/
def getCodec (s : LoaderState) (format : String) (outcome : LoadOutcome) :
    Option Unit × LoaderState × Bool :=
  match getCodecName format with
  | none => (none, s, false)
  | some codecName =>
    if s.loadedCodecs.contains codecName then
      (some (), s, false)
    else
      match loadCodec s codecName outcome with
      | (.ok _, s', invoked) =>
        (some (), { s' with loadedCodecs := codecName :: s'.loadedCodecs }, invoked)
      | (.error _, s', invoked) =>
        (none, s', invoked)

/-- Run a sequence of sequential `getCodec` calls, all with the same loader
outcome, collecting each call's (result, loader-invoked) pair. -/
def runGetCodecs (s : LoaderState) (formats : List String) (outcome : LoadOutcome) :
    LoaderState × List (Option Unit × Bool) :=
  match formats with
  | [] => (s, [])
  | f :: rest =>
    let step := getCodec s f outcome
    let tail := runGetCodecs step.2.1 rest outcome
    (tail.1, (step.1, step.2.2) :: tail.2)

/-! ### Concurrent `getCodec` model

In the JavaScript event loop an `async` function body runs atomically up to
its first `await`.  A `getCodec` call's synchronous prefix performs the whole
decision — cached-module check, in-flight-promise check, starting `loadCodec`
up to its first `await` (which is past the attempt increment), and
registering the promise in `loadingPromises` — before any other call can
interleave.  Concurrent calls are therefore modelled as a sequence of these
atomic prefixes executed in arrival order, all before the load settles. -/

/-- Loader state including the in-flight `loadingPromises` keys. -/
structure ConcLoaderState where
  loadedCodecs : List String
  loadingPromises : List String
  loadAttempts : List (String × ℕ)
  maxRetries : ℕ
deriving DecidableEq, Repr

/-- A freshly constructed loader with no load in flight. -/
def initConcLoaderState : ConcLoaderState :=
  { loadedCodecs := [], loadingPromises := [], loadAttempts := [], maxRetries := 2 }

/-- How the synchronous prefix of one `getCodec` call left the call. -/
inductive CallFate where
  /-- The format resolves to no codec; returned `null` synchronously. -/
  | unsupported
  /-- Returned the cached module synchronously. -/
  | cachedHit
  /-- Awaits the existing in-flight load; no new load started. -/
  | awaitsExisting
  /-- Started a fresh load: `config.loader()` was invoked. -/
  | startsLoad
  /-- Started `loadCodec`, which rejected at the retry ceiling without
  invoking the loader. -/
  | startsExhausted
deriving DecidableEq, Repr

/-- The atomic synchronous prefix of `getCodec` (lines 116-141 plus the
prefix of `loadCodec` up to its first `await`). -/
def getCodecSyncPrefix (s : ConcLoaderState) (format : String) :
    ConcLoaderState × CallFate :=
  match getCodecName format with
  | none => (s, .unsupported)
  | some codecName =>
    if s.loadedCodecs.contains codecName then
      (s, .cachedHit)
    else if s.loadingPromises.contains codecName then
      (s, .awaitsExisting)
    else
      let attempts := ((s.loadAttempts.lookup codecName).getD 0)
      if attempts ≥ s.maxRetries then
        ({ s with loadingPromises := codecName :: s.loadingPromises }, .startsExhausted)
      else
        ({ s with
            loadAttempts := assocSet s.loadAttempts codecName (attempts + 1)
            loadingPromises := codecName :: s.loadingPromises }, .startsLoad)

/-- Run the synchronous prefixes of a batch of concurrent `getCodec` calls in
arrival order (all arriving before the first load settles). -/
def runArrivals (s : ConcLoaderState) (formats : List String) :
    ConcLoaderState × List CallFate :=
  match formats with
  | [] => (s, [])
  | f :: rest =>
    let step := getCodecSyncPrefix s f
    let tail := runArrivals step.1 rest
    (tail.1, step.2 :: tail.2)

/-! ## Worker pool (`CompressionService`, unnamed module, lines 11-273)

Workers are identified by numbers; the `tasks` map is a list of pending
tasks.  The source's `CompressionTask` records no worker; the field
`assignedWorker` below is ghost specification state recording which worker
(if any) the task's `compress` message was posted to — `none` for a task
registered by the queueing branch of `compressImage` before any dispatch. -/

/-- One entry of the pool's `tasks` map, with the ghost `assignedWorker`. -/
structure PoolTask where
  id : String
  assignedWorker : Option ℕ
deriving DecidableEq, Repr

/-- The scheduler state of `CompressionService`: the worker pool, the pending
`tasks` map and the FIFO `queue` of job ids. -/
structure PoolState where
  workers : List ℕ
  tasks : List PoolTask
  queue : List String
deriving DecidableEq, Repr

/-- `CompressionService.getAvailableWorker` (lines 119-127), verbatim: for
each worker, `busyTasks` filters **all** tasks by a predicate that ignores
the task and only tests that `worker` is an element of the pool; the worker
is returned iff `busyTasks` is empty. -/
def getAvailableWorker (s : PoolState) : Option ℕ :=
  s.workers.find? (fun worker =>
    let busyTasks := s.tasks.filter (fun _task =>
      s.workers.any (fun w => w == worker))
    busyTasks.length == 0)

/-- The idle test the spec describes: a context is idle iff it has zero
assigned tasks.  Stated over the ghost `assignedWorker` field for comparison
with `getAvailableWorker`. -/
def specIdle (s : PoolState) (worker : ℕ) : Bool :=
  (s.tasks.filter (fun t => t.assignedWorker == some worker)).length == 0

/-- One iteration of the `processQueue` drain loop (lines 134-146): look up
an available worker; when none, sleep 100 ms and retry (state unchanged,
nothing dispatched); otherwise shift the queue head and dispatch it to the
worker (registering its task as assigned).  Returns the dispatch event, if
any. -/
def processQueueStep (s : PoolState) : PoolState × Option (String × ℕ) :=
  match getAvailableWorker s with
  | none => (s, none)
  | some w =>
    match s.queue with
    | [] => (s, none)
    | jobId :: rest =>
      ({ s with
          queue := rest
          tasks := s.tasks.filter (fun t => !(t.id == jobId)) ++ [⟨jobId, some w⟩] },
       some (jobId, w))

/-- `handleWorkerMessage` for a `success`/`error` message (lines 75-83):
delete the task and settle its promise. -/
def completeTask (s : PoolState) (id : String) : PoolState :=
  { s with tasks := s.tasks.filter (fun t => !(t.id == id)) }

/-- Events the scheduler can experience: a `processQueue` poll iteration, or
the arrival of a worker's terminal message for job `id`.  A worker only posts
a terminal message for a job whose `compress` message it received, so
completion is guarded on the task having been dispatched. -/
inductive PoolAction where
  | poll
  | complete (id : String)
deriving DecidableEq, Repr

/-- One scheduler step. -/
def poolStep (s : PoolState) : PoolAction → PoolState × Option (String × ℕ)
  | .poll => processQueueStep s
  | .complete id =>
    if s.tasks.any (fun t => t.id == id && t.assignedWorker.isSome) then
      (completeTask s id, none)
    else
      (s, none)

/-- Run a schedule of scheduler steps, collecting all dispatch events. -/
def poolRun (s : PoolState) (script : List PoolAction) :
    PoolState × List (String × ℕ) :=
  match script with
  | [] => (s, [])
  | a :: rest =>
    let step := poolStep s a
    let tail := poolRun step.1 rest
    (tail.1, step.2.toList ++ tail.2)

/-- The state `compressImage`'s queueing branch (lines 204-227) leaves behind
for job `qid`: the job is in the queue, its task is registered in the `tasks`
map, and — `tasks` being a map keyed by unique ids — no other entry carries
its id; the task has not been posted to any worker. -/
def QueuedUndispatched (qid : String) (s : PoolState) : Prop :=
  qid ∈ s.queue ∧
    (∃ t ∈ s.tasks, t.id = qid ∧ t.assignedWorker = none) ∧
    (∀ t ∈ s.tasks, t.id = qid → t.assignedWorker = none)

instance (qid : String) (s : PoolState) : Decidable (QueuedUndispatched qid s) := by
  unfold QueuedUndispatched
  exact inferInstance

/-- A pool of two workers with a single task in flight on worker 0 — the
configuration of the idle-lookup divergence. -/
def poolOneBusy : PoolState :=
  { workers := [0, 1], tasks := [{ id := "a", assignedWorker := some 0 }], queue := [] }

/-! ## Properties of the rounding helpers -/

theorem jsRound_intCast (m : ℤ) : jsRound (m : ℚ) = m := by
  unfold jsRound
  rw [Int.floor_int_add]
  norm_num

theorem jsRound_le_int {x : ℚ} {m : ℤ} (h : x ≤ (m : ℚ)) : jsRound x ≤ m := by
  unfold jsRound
  calc ⌊x + 1 / 2⌋ ≤ ⌊(m : ℚ) + 1 / 2⌋ := Int.floor_le_floor (by linarith)
    _ = m := by rw [Int.floor_int_add]; norm_num

theorem jsRound_eq_of (q : ℚ) (m : ℤ) (h₁ : (m : ℚ) ≤ q + 1 / 2)
    (h₂ : q + 1 / 2 < m + 1) : jsRound q = m :=
  Int.floor_eq_iff.mpr ⟨h₁, h₂⟩

theorem abs_jsRound_sub_le (x : ℚ) : |((jsRound x : ℤ) : ℚ) - x| ≤ 1 / 2 := by
  unfold jsRound
  have h1 : ((⌊x + 1 / 2⌋ : ℤ) : ℚ) ≤ x + 1 / 2 := Int.floor_le _
  have h2 : x + 1 / 2 - 1 < ((⌊x + 1 / 2⌋ : ℤ) : ℚ) := Int.sub_one_lt_floor _
  rw [abs_le]
  constructor <;> linarith

theorem jsRound_cast_le {x : ℚ} {m : ℤ} (hx : x ≤ (m : ℚ)) :
    ((jsRound x : ℤ) : ℚ) ≤ (m : ℚ) := by
  exact_mod_cast jsRound_le_int hx

theorem jsRound_intCast_q (m : ℤ) : ((jsRound (m : ℚ) : ℤ) : ℚ) = (m : ℚ) := by
  rw [jsRound_intCast]

theorem jsTruthy_pos {m : ℤ} (hm : 0 < m) : jsTruthy (some (m : ℚ)) = true := by
  simp only [jsTruthy, bne_iff_ne, ne_eq, Int.cast_eq_zero]
  omega

end ImgCompress

namespace ImgCompress

/-! ## Claim theorems -/

/-- **C3**: the claim says a context counts as idle exactly when it has zero
assigned tasks, so with a pool of two workers and a single task in flight on
worker 0 the idle lookup should return worker 1.  The code's `busyTasks`
filter ignores the task and counts every pending task against every worker,
so `getAvailableWorker` returns `null` although worker 1 is a member of the
pool and has zero assigned tasks. -/
theorem getAvailableWorker_ignores_assignment :
    getAvailableWorker poolOneBusy = none ∧
      specIdle poolOneBusy 1 = true ∧ 1 ∈ poolOneBusy.workers := by
  decide

/-- **C10**: `calculateDimensions` never clamps to a minimum of 1: the
positive-dimensioned 1000×1 input with `maxWidth = 100` scales height to
`0.1`, which `Math.round` takes to `0`. -/
theorem calculateDimensions_can_return_zero :
    calculateDimensions 1000 1 (some 100) none = (100, 0) ∧
      (0 : ℚ) < 1000 ∧ (0 : ℚ) < 1 ∧ jsRound (1 * 100 / 1000) = 0 := by
  have h1 : jsRound (1 / 10 : ℚ) = 0 := jsRound_eq_of _ 0 (by norm_num) (by norm_num)
  have h2 : jsRound (100 : ℚ) = 100 := jsRound_eq_of _ 100 (by norm_num) (by norm_num)
  refine ⟨?_, by norm_num, by norm_num, ?_⟩
  · norm_num [calculateDimensions, jsTruthy, h1, h2]
  · norm_num [show (1 * 100 / 1000 : ℚ) = 1 / 10 by norm_num, h1]

/-- **C9**: the canvas fallback always resolves a MIME type: any format
outside `{jpeg, jpg, png, webp, avif}` hits the `default:` case of
`getMimeType` and becomes `image/jpeg`, `avif` is overridden to
`image/webp`, and `compressWithCanvas` succeeds for every format string
whenever decoding and serialization succeed, producing a result that records
`method = "canvas"` and no codec/format substitution. -/
theorem canvas_mime_fallback (format : String)
    (hf : format ∉ (["jpeg", "jpg", "png", "webp", "avif"] : List String))
    (env : CompressEnv) (originalSize : Nat) (settings : CompressionSettings)
    (hd : env.decodeOk = true) (hc : env.convertOk = true) :
    getMimeType format = "image/jpeg" ∧
      canvasMimeType "avif" = "image/webp" ∧
      ∃ r, (compressWithCanvas env originalSize settings).2 = .ok r ∧
        r.method = "canvas" ∧ r.codec = none := by
  refine ⟨?_, by decide, ?_⟩
  · simp only [List.mem_cons, List.not_mem_nil, or_false, not_or] at hf
    obtain ⟨h1, h2, h3, h4, h5⟩ := hf
    simp [getMimeType, h1, h2, h3, h4, h5]
  · have hres : (compressWithCanvas env originalSize settings).2 =
        .ok { originalSize := originalSize
              compressedSize := env.canvasEncodedSize
              width := (calculateDimensions env.imgWidth env.imgHeight
                settings.maxWidth settings.maxHeight).1
              height := (calculateDimensions env.imgWidth env.imgHeight
                settings.maxWidth settings.maxHeight).2
              method := "canvas"
              codec := none } := by
      simp [compressWithCanvas, hd, hc]
    exact ⟨_, hres, rfl, rfl⟩

/-- Witness for `canvas_mime_fallback` at the unrecognized format `"bmp"`. -/
theorem canvas_mime_fallback_witness :
    getMimeType "bmp" = "image/jpeg" ∧
      canvasMimeType "avif" = "image/webp" ∧
      ∃ r, (compressWithCanvas
          { codecLoads := true, decodeOk := true, encodeOk := true, convertOk := true,
            imgWidth := 100, imgHeight := 100, wasmEncodedSize := 10, canvasEncodedSize := 20 }
          1000
          { quality := 80, maxWidth := none, maxHeight := none,
            format := "bmp", removeMetadata := false }).2 = .ok r ∧
        r.method = "canvas" ∧ r.codec = none :=
  canvas_mime_fallback "bmp" (by decide) _ 1000 _ rfl rfl

/-- **C7, counterexample**: `"jpg"` is an accepted alias of the JPEG codec
(`isFormatSupported "jpg"` holds), yet `prepareWASMOptions` switches on the
exact format string and has no `'jpg'` case, so the requested quality (50)
does not pass through — the codec default is kept instead. -/
theorem prepareWASMOptions_jpg_alias_ignored :
    isFormatSupported "jpg" = true ∧
      (prepareWASMOptions sampleCodecDefaults
        { quality := 50, maxWidth := none, maxHeight := none,
          format := "jpg", removeMetadata := false }).quality ≠ some 50 := by
  refine ⟨by decide, ?_⟩
  have h : prepareWASMOptions sampleCodecDefaults
      { quality := 50, maxWidth := none, maxHeight := none,
        format := "jpg", removeMetadata := false } =
      { quality := some 75, cqLevel := none } := by decide
  rw [h]
  norm_num

/-- **C7, amended**: quality translation by exact format string: `'jpeg'` and
`'webp'` pass the quality through, `'avif'` derives
`cqLevel = round((100 − quality) × 0.63)`, and `'png'` — like every other
string, including the accepted alias `'jpg'` — leaves the codec defaults
untouched.  Holds for every choice of external codec defaults. -/
theorem prepareWASMOptions_translation (codecDefaults : String → WASMOptions)
    (settings : CompressionSettings) :
    (settings.format = "jpeg" ∨ settings.format = "webp" →
      prepareWASMOptions codecDefaults settings =
        { getDefaultOptions codecDefaults settings.format with
            quality := some settings.quality }) ∧
    (settings.format = "avif" →
      prepareWASMOptions codecDefaults settings =
        { getDefaultOptions codecDefaults settings.format with
            cqLevel := some (jsRound ((100 - settings.quality) * (63 / 100))) }) ∧
    (settings.format = "png" ∨ settings.format = "jpg" →
      prepareWASMOptions codecDefaults settings =
        getDefaultOptions codecDefaults settings.format) := by
  refine ⟨?_, ?_, ?_⟩
  · rintro (h | h) <;> simp [prepareWASMOptions, h]
  · intro h
    simp [prepareWASMOptions, h]
  · rintro (h | h) <;> simp [prepareWASMOptions, h]

/-- Witness for `prepareWASMOptions_translation` at format `"jpeg"`,
quality 80. -/
theorem prepareWASMOptions_translation_witness :
    prepareWASMOptions sampleCodecDefaults
        { quality := 80, maxWidth := none, maxHeight := none,
          format := "jpeg", removeMetadata := false } =
      { getDefaultOptions sampleCodecDefaults "jpeg" with quality := some 80 } :=
  (prepareWASMOptions_translation sampleCodecDefaults _).1 (Or.inl rfl)

/-- **C1**: when `shouldUseWASM` holds, `compress` attempts the WASM path;
on any error from it, the outcome is the canvas path's outcome when
`fallbackToCanvas` is enabled and the propagated error when disabled; and
with fallback enabled, `compress` succeeds whenever the canvas path alone
would succeed (decode and serialization both succeed), however the WASM path
fares. -/
theorem compress_fallback_guarantee (opts : SmartCompressorOptions)
    (env : CompressEnv) (byteLength : Nat) (settings : CompressionSettings) :
    (∀ e, shouldUseWASM opts byteLength settings = true →
        (compressWithWASM env byteLength settings).2 = .error e →
        (opts.fallbackToCanvas = true →
          (compress opts env byteLength settings).2 =
            (compressWithCanvas env byteLength settings).2) ∧
        (opts.fallbackToCanvas = false →
          (compress opts env byteLength settings).2 = .error e)) ∧
    (opts.fallbackToCanvas = true → env.decodeOk = true → env.convertOk = true →
      ∃ r, (compress opts env byteLength settings).2 = .ok r) := by
  constructor
  · intro e hW herr
    constructor <;> intro hfb <;> simp [compress, hW, herr, hfb]
  · intro hfb hd hc
    have hrc : (compressWithCanvas env byteLength settings).2 =
        .ok { originalSize := byteLength
              compressedSize := env.canvasEncodedSize
              width := (calculateDimensions env.imgWidth env.imgHeight
                settings.maxWidth settings.maxHeight).1
              height := (calculateDimensions env.imgWidth env.imgHeight
                settings.maxWidth settings.maxHeight).2
              method := "canvas"
              codec := none } := by
      simp [compressWithCanvas, hd, hc]
    set rc := ({ originalSize := byteLength
                 compressedSize := env.canvasEncodedSize
                 width := (calculateDimensions env.imgWidth env.imgHeight
                   settings.maxWidth settings.maxHeight).1
                 height := (calculateDimensions env.imgWidth env.imgHeight
                   settings.maxWidth settings.maxHeight).2
                 method := "canvas"
                 codec := none } : CompressionResult) with hrcdef
    by_cases hW : shouldUseWASM opts byteLength settings = true
    · rcases hres : (compressWithWASM env byteLength settings).2 with e | r
      · exact ⟨rc, by simp [compress, hW, hres, hfb, hrc]⟩
      · exact ⟨r, by simp [compress, hW, hres]⟩
    · exact ⟨rc, by simp [compress, hW, hrc]⟩

/-- `shouldUseWASM` only returns true for formats the codec table supports. -/
theorem shouldUseWASM_supported {opts : SmartCompressorOptions}
    {byteLength : Nat} {settings : CompressionSettings}
    (h : shouldUseWASM opts byteLength settings = true) :
    (getCodecName settings.format).isSome = true := by
  unfold shouldUseWASM at h
  split at h
  · simp at h
  · split at h
    · simp at h
    · split at h
      · simp at h
      · next hns =>
        have : isFormatSupported settings.format = true := by
          simpa using hns
        simpa [isFormatSupported] using this

/-- Witness for `compress_fallback_guarantee`: the WASM codec fails to load,
yet `compress` succeeds through the canvas fallback. -/
theorem compress_fallback_guarantee_witness :
    ∃ r, (compress defaultCompressorOptions
        { codecLoads := false, decodeOk := true, encodeOk := true, convertOk := true,
          imgWidth := 100, imgHeight := 100, wasmEncodedSize := 10, canvasEncodedSize := 20 }
        1000
        { quality := 80, maxWidth := none, maxHeight := none,
          format := "webp", removeMetadata := false }).2 = .ok r :=
  (compress_fallback_guarantee _ _ _ _).2 rfl rfl rfl

/-- `assocSet` stores the value it was given. -/
theorem assocSet_lookup (m : List (String × ℕ)) (k : String) (v : ℕ) :
    (assocSet m k v).lookup k = some v := by
  induction m with
  | nil => simp [assocSet, List.lookup]
  | cons kv rest ih =>
    obtain ⟨k', v'⟩ := kv
    by_cases hk : k' = k
    · simp [assocSet, hk, List.lookup]
    · have h1 : (k' == k) = false := by simpa using hk
      have h2 : (k == k') = false := by simpa using Ne.symm hk
      simp [assocSet, h1, h2, List.lookup, ih]

/-- A codec name produced by `getCodecName` is a key of `CODEC_CONFIGS`. -/
theorem codecName_mem (f name : String) (h : getCodecName f = some name) :
    CODEC_CONFIGS.any (fun config => config.1 == name) = true := by
  simp only [getCodecName] at h
  rcases hf : CODEC_CONFIGS.find? (fun config => config.2.contains (jsToLower f))
    with _ | c
  · rw [hf] at h
    simp at h
  · rw [hf] at h
    have hc : c ∈ CODEC_CONFIGS := List.mem_of_find?_eq_some hf
    have hcn : c.1 = name := by simpa using h
    exact List.any_eq_true.mpr ⟨c, hc, by simp [hcn]⟩

/-- One sequential `getCodec` call with an always-failing loader: below the
retry ceiling it invokes the loader, bumps the attempt counter and returns
`null`; at the ceiling it returns `null` without invoking the loader. -/
theorem getCodec_failure_step (f name : String) (h : getCodecName f = some name)
    (atts : List (String × ℕ)) :
    getCodec ⟨[], atts, 2⟩ f .failure =
      if (atts.lookup name).getD 0 < 2 then
        (none, ⟨[], assocSet atts name ((atts.lookup name).getD 0 + 1), 2⟩, true)
      else
        (none, ⟨[], atts, 2⟩, false) := by
  have hmem := codecName_mem f name h
  by_cases hlt : (atts.lookup name).getD 0 < 2
  · simp [getCodec, loadCodec, h, hmem, hlt, Nat.not_le.mpr hlt]
  · simp [getCodec, loadCodec, h, hmem, hlt, Nat.le_of_not_lt hlt]

/-- Running a sequence of `getCodec` calls for formats of one codec with an
always-failing loader: the `i`-th call returns `null` and invokes the loader
exactly when the attempt counter (starting at the current value for that
codec) plus `i` is still below the ceiling. -/
theorem runGetCodecs_failure_eq (name : String) (formats : List String)
    (h : ∀ f ∈ formats, getCodecName f = some name) :
    ∀ atts : List (String × ℕ),
      (runGetCodecs ⟨[], atts, 2⟩ formats .failure).2
        = (List.range formats.length).map
            (fun i => (none, decide ((atts.lookup name).getD 0 + i < 2))) := by
  revert h
  induction formats with
  | nil =>
    intro h atts
    simp [runGetCodecs]
  | cons f rest ih =>
    intro h atts
    have hf : getCodecName f = some name := h f (List.mem_cons_self f rest)
    have hrest : ∀ g ∈ rest, getCodecName g = some name :=
      fun g hg => h g (List.mem_cons_of_mem f hg)
    have hstep := getCodec_failure_step f name hf atts
    rw [List.length_cons, List.range_succ_eq_map, List.map_cons, List.map_map]
    by_cases hlt : (atts.lookup name).getD 0 < 2
    · rw [if_pos hlt] at hstep
      have hnext : ((assocSet atts name ((atts.lookup name).getD 0 + 1)).lookup
          name).getD 0 = (atts.lookup name).getD 0 + 1 := by
        rw [assocSet_lookup]
        rfl
      have ihx := ih hrest (assocSet atts name ((atts.lookup name).getD 0 + 1))
      rw [hnext] at ihx
      have hl : (runGetCodecs ⟨[], atts, 2⟩ (f :: rest) .failure).2
          = (none, true) :: (runGetCodecs
              ⟨[], assocSet atts name ((atts.lookup name).getD 0 + 1), 2⟩
              rest .failure).2 := by
        simp [runGetCodecs, hstep]
      rw [hl, ihx]
      congr 1
      · simp [hlt]
      · apply List.map_congr_left
        intro a _
        simp only [Function.comp]
        congr 1
        rw [show (atts.lookup name).getD 0 + 1 + a
          = (atts.lookup name).getD 0 + (a + 1) from by omega]
    · rw [if_neg hlt] at hstep
      have ihx := ih hrest atts
      have hl : (runGetCodecs ⟨[], atts, 2⟩ (f :: rest) .failure).2
          = (none, false) :: (runGetCodecs ⟨[], atts, 2⟩ rest .failure).2 := by
        simp [runGetCodecs, hstep]
      rw [hl, ihx]
      congr 1
      · simp
        omega
      · apply List.map_congr_left
        intro a _
        simp only [Function.comp]
        congr 1
        have h1 : ¬((atts.lookup name).getD 0 + a < 2) := by omega
        have h2 : ¬((atts.lookup name).getD 0 + (a + 1) < 2) := by omega
        simp [h1, h2]

/-- The number of indices below the retry ceiling among `0, …, n − 1`. -/
theorem countP_range_min (n : ℕ) :
    (List.range n).countP (fun i => decide (0 + i < 2)) = min n 2 := by
  induction n with
  | zero => simp
  | succ m ih =>
    rw [List.range_succ, List.countP_append, ih]
    have hsing : List.countP (fun i => decide (0 + i < 2)) [m]
        = if 0 + m < 2 then 1 else 0 := by
      simp [List.countP_cons]
    rw [hsing]
    by_cases hm : 0 + m < 2
    · rw [if_pos hm]
      omega
    · rw [if_neg hm]
      omega

/-- **C5**: with an always-failing loader, running any number of sequential
`getCodec` calls for formats of a single codec from a fresh loader yields
`null` on every call (never an exception), invokes the underlying loader at
most 2 times in total, and — once the two-attempt ceiling is reached — every
further call (index ≥ 2) returns `null` without invoking the loader. -/
theorem getCodec_retry_ceiling (formats : List String) (name : String)
    (h : ∀ f ∈ formats, getCodecName f = some name) :
    (∀ p ∈ (runGetCodecs initLoaderState formats .failure).2, p.1 = none) ∧
      (runGetCodecs initLoaderState formats .failure).2.countP (fun p => p.2) ≤ 2 ∧
      (∀ i (hi : i < (runGetCodecs initLoaderState formats .failure).2.length),
        2 ≤ i →
        ((runGetCodecs initLoaderState formats .failure).2.get ⟨i, hi⟩).2 = false) := by
  have heq : (runGetCodecs initLoaderState formats .failure).2
      = (List.range formats.length).map (fun i => (none, decide (0 + i < 2))) := by
    have h0 : ((([] : List (String × ℕ)).lookup name).getD 0) = 0 := by
      simp [List.lookup]
    have := runGetCodecs_failure_eq name formats h []
    rw [h0] at this
    exact this
  refine ⟨?_, ?_, ?_⟩
  · intro p hp
    rw [heq] at hp
    obtain ⟨i, _, hpi⟩ := List.mem_map.mp hp
    rw [← hpi]
  · rw [heq, List.countP_map]
    have : ((fun p => p.2) ∘ fun i => ((none : Option Unit), decide (0 + i < 2)))
        = fun i => decide (0 + i < 2) := rfl
    rw [this, countP_range_min]
    omega
  · intro i hi h2
    simp only [List.get_eq_getElem]
    simp only [heq, List.getElem_map, List.getElem_range]
    simp
    omega

/-- Witness for `getCodec_retry_ceiling`: three successive failing calls for
the JPEG codec's formats (`jpeg`, `jpg`, `jpeg`). -/
theorem getCodec_retry_ceiling_witness :
    (∀ p ∈ (runGetCodecs initLoaderState ["jpeg", "jpg", "jpeg"] .failure).2,
      p.1 = none) ∧
      (runGetCodecs initLoaderState ["jpeg", "jpg", "jpeg"] .failure).2.countP
        (fun p => p.2) ≤ 2 ∧
      (∀ i (hi : i < (runGetCodecs initLoaderState
          ["jpeg", "jpg", "jpeg"] .failure).2.length),
        2 ≤ i →
        ((runGetCodecs initLoaderState
          ["jpeg", "jpg", "jpeg"] .failure).2.get ⟨i, hi⟩).2 = false) :=
  getCodec_retry_ceiling ["jpeg", "jpg", "jpeg"] "mozjpeg" (by decide)

/-- Once a load for `name` is in flight and no module is cached, every
further concurrent `getCodec` arrival for `name`'s formats awaits the
existing in-flight load and leaves the loader state unchanged. -/
theorem runArrivals_awaits (name : String) (formats : List String)
    (h : ∀ f ∈ formats, getCodecName f = some name) :
    ∀ s : ConcLoaderState, s.loadedCodecs.contains name = false →
      s.loadingPromises.contains name = true →
      runArrivals s formats = (s, List.replicate formats.length .awaitsExisting) := by
  revert h
  induction formats with
  | nil =>
    intro h s _ _
    simp [runArrivals]
  | cons f rest ih =>
    intro h s hload hin
    have hf : getCodecName f = some name := h f (List.mem_cons_self f rest)
    have hrest : ∀ g ∈ rest, getCodecName g = some name :=
      fun g hg => h g (List.mem_cons_of_mem f hg)
    have hload' : ¬(name ∈ s.loadedCodecs) := by simpa using hload
    have hin' : name ∈ s.loadingPromises := by simpa using hin
    have hstep : getCodecSyncPrefix s f = (s, .awaitsExisting) := by
      simp [getCodecSyncPrefix, hf, hload', hin']
    simp [runArrivals, hstep, ih hrest s hload hin, List.replicate_succ]

/-- **C6**: K ≥ 1 concurrent `getCodec` calls for formats of one codec, all
arriving at a fresh loader before the load settles: the first arrival starts
the one underlying module load, every later arrival awaits the existing
in-flight load, and exactly one load is started in total. -/
theorem getCodec_load_dedup (formats : List String) (name : String)
    (h : ∀ f ∈ formats, getCodecName f = some name) (hne : formats ≠ []) :
    (runArrivals initConcLoaderState formats).2.countP
        (fun fate => fate == CallFate.startsLoad) = 1 ∧
      (runArrivals initConcLoaderState formats).2.head? = some .startsLoad ∧
      (∀ i (hi : i < (runArrivals initConcLoaderState formats).2.length),
        1 ≤ i → (runArrivals initConcLoaderState formats).2.get ⟨i, hi⟩
          = .awaitsExisting) := by
  rcases formats with _ | ⟨f, rest⟩
  · exact absurd rfl hne
  · have hf : getCodecName f = some name := h f (List.mem_cons_self f rest)
    have hrest : ∀ g ∈ rest, getCodecName g = some name :=
      fun g hg => h g (List.mem_cons_of_mem f hg)
    have hstep : getCodecSyncPrefix initConcLoaderState f
        = ({ loadedCodecs := [], loadingPromises := [name],
             loadAttempts := [(name, 1)], maxRetries := 2 }, .startsLoad) := by
      simp [getCodecSyncPrefix, initConcLoaderState, hf, assocSet, List.lookup]
    have hawait := runArrivals_awaits name rest hrest
      { loadedCodecs := [], loadingPromises := [name],
        loadAttempts := [(name, 1)], maxRetries := 2 }
      (by simp) (by simp)
    have hrun : (runArrivals initConcLoaderState (f :: rest)).2
        = CallFate.startsLoad :: List.replicate rest.length CallFate.awaitsExisting := by
      simp [runArrivals, hstep, hawait]
    rw [hrun]
    refine ⟨?_, rfl, ?_⟩
    · rw [List.countP_cons]
      have hz : List.countP (fun fate => fate == CallFate.startsLoad)
          (List.replicate rest.length CallFate.awaitsExisting) = 0 := by
        apply List.countP_eq_zero.mpr
        intro a ha
        rw [List.eq_of_mem_replicate ha]
        simp
      rw [hz]
      simp
    · intro i hi h1
      rcases i with _ | k
      · omega
      · simp only [List.get_eq_getElem, List.getElem_cons_succ]
        simp [List.getElem_replicate]

/-- Witness for `getCodec_load_dedup`: two concurrent calls for `webp`. -/
theorem getCodec_load_dedup_witness :
    (runArrivals initConcLoaderState ["webp", "webp"]).2.countP
        (fun fate => fate == CallFate.startsLoad) = 1 ∧
      (runArrivals initConcLoaderState ["webp", "webp"]).2.head?
        = some .startsLoad ∧
      (∀ i (hi : i < (runArrivals initConcLoaderState ["webp", "webp"]).2.length),
        1 ≤ i → (runArrivals initConcLoaderState ["webp", "webp"]).2.get ⟨i, hi⟩
          = .awaitsExisting) :=
  getCodec_load_dedup ["webp", "webp"] "webp" (by decide) (by decide)

/-- **C4**: the dimension law for `calculateDimensions` on positive integer
inputs with positive integer bounds: with neither bound set the dimensions
are returned unchanged; a set bound is never exceeded (the scaled value is
rounded, and an integer bound absorbs the half-pixel of `Math.round`); the
two rounded outputs are within half a pixel of an exact common scaling
`s · (w, h)` of the input, so aspect ratio is preserved to within one pixel
of rounding error; and `maxWidth = 200` on an 800×400 input yields 200×100. -/
theorem calculateDimensions_law (w h : ℤ) (mW mH : Option ℤ)
    (hw : 0 < w) (hh : 0 < h)
    (hmW : ∀ m ∈ mW, 0 < m) (hmH : ∀ m ∈ mH, 0 < m) :
    (mW = none → mH = none →
      calculateDimensions (w : ℚ) (h : ℚ) (mW.map fun m => (m : ℚ))
        (mH.map fun m => (m : ℚ)) = ((w : ℚ), (h : ℚ))) ∧
    (∀ m ∈ mW, (calculateDimensions (w : ℚ) (h : ℚ) (mW.map fun m => (m : ℚ))
        (mH.map fun m => (m : ℚ))).1 ≤ (m : ℚ)) ∧
    (∀ m ∈ mH, (calculateDimensions (w : ℚ) (h : ℚ) (mW.map fun m => (m : ℚ))
        (mH.map fun m => (m : ℚ))).2 ≤ (m : ℚ)) ∧
    (∃ s : ℚ, 0 < s ∧
      |(calculateDimensions (w : ℚ) (h : ℚ) (mW.map fun m => (m : ℚ))
          (mH.map fun m => (m : ℚ))).1 - s * (w : ℚ)| ≤ 1 / 2 ∧
      |(calculateDimensions (w : ℚ) (h : ℚ) (mW.map fun m => (m : ℚ))
          (mH.map fun m => (m : ℚ))).2 - s * (h : ℚ)| ≤ 1 / 2) ∧
    calculateDimensions 800 400 (some 200) none = (200, 100) := by
  have hex : calculateDimensions 800 400 (some 200) none = (200, 100) := by
    have h1 : jsRound (100 : ℚ) = 100 := jsRound_eq_of _ 100 (by norm_num) (by norm_num)
    have h2 : jsRound (200 : ℚ) = 200 := jsRound_eq_of _ 200 (by norm_num) (by norm_num)
    norm_num [calculateDimensions, jsTruthy, h1, h2]
  have hwq : (0 : ℚ) < (w : ℚ) := by exact_mod_cast hw
  have hhq : (0 : ℚ) < (h : ℚ) := by exact_mod_cast hh
  rcases mW with _ | m
  · rcases mH with _ | m'
    · have hdims : calculateDimensions (w : ℚ) (h : ℚ)
          ((none : Option ℤ).map fun m => (m : ℚ))
          ((none : Option ℤ).map fun m => (m : ℚ)) = ((w : ℚ), (h : ℚ)) := by
        simp [calculateDimensions, jsTruthy]
      refine ⟨fun _ _ => hdims, by simp, by simp, ⟨1, one_pos, ?_, ?_⟩, hex⟩
      · rw [hdims]
        norm_num
      · rw [hdims]
        norm_num
    · have hm' : 0 < m' := hmH m' rfl
      have hm'ne : m' ≠ 0 := hm'.ne'
      have hm'q : (0 : ℚ) < (m' : ℚ) := by exact_mod_cast hm'
      have ht' : jsTruthy (some (m' : ℚ)) = true := jsTruthy_pos hm'
      by_cases hB : (h : ℚ) > (m' : ℚ)
      · have hdims : calculateDimensions (w : ℚ) (h : ℚ)
            ((none : Option ℤ).map fun m => (m : ℚ))
            ((some m').map fun m => (m : ℚ))
            = (((jsRound ((w : ℚ) * (m' : ℚ) / (h : ℚ)) : ℤ) : ℚ),
               ((jsRound ((m' : ℚ)) : ℤ) : ℚ)) := by
          simp [calculateDimensions, jsTruthy, ht', hB, hm'ne]
        refine ⟨fun _ hc => absurd hc (Option.some_ne_none m'), by simp, ?_, ?_, hex⟩
        · intro m'' hm''
          have he : m' = m'' := by simpa using hm''
          subst he
          rw [hdims, jsRound_intCast_q]
        · refine ⟨(m' : ℚ) / (h : ℚ), div_pos hm'q hhq, ?_, ?_⟩
          · rw [hdims]
            rw [show (m' : ℚ) / (h : ℚ) * (w : ℚ) = (w : ℚ) * (m' : ℚ) / (h : ℚ)
              from by ring]
            exact abs_jsRound_sub_le _
          · rw [hdims, div_mul_cancel₀ _ hhq.ne']
            exact abs_jsRound_sub_le _
      · have hdims : calculateDimensions (w : ℚ) (h : ℚ)
            ((none : Option ℤ).map fun m => (m : ℚ))
            ((some m').map fun m => (m : ℚ)) = ((w : ℚ), (h : ℚ)) := by
          simp [calculateDimensions, jsTruthy, ht', hB, hm'ne, jsRound_intCast_q]
        refine ⟨fun _ hc => absurd hc (Option.some_ne_none m'), by simp, ?_,
          ⟨1, one_pos, ?_, ?_⟩, hex⟩
        · intro m'' hm''
          have he : m' = m'' := by simpa using hm''
          subst he
          rw [hdims]
          exact not_lt.mp hB
        · rw [hdims]
          norm_num
        · rw [hdims]
          norm_num
  · have hm : 0 < m := hmW m rfl
    have hmne : m ≠ 0 := hm.ne'
    have hmq : (0 : ℚ) < (m : ℚ) := by exact_mod_cast hm
    have ht : jsTruthy (some (m : ℚ)) = true := jsTruthy_pos hm
    rcases mH with _ | m'
    · by_cases hA : (w : ℚ) > (m : ℚ)
      · have hdims : calculateDimensions (w : ℚ) (h : ℚ)
            ((some m).map fun m => (m : ℚ))
            ((none : Option ℤ).map fun m => (m : ℚ))
            = (((jsRound ((m : ℚ)) : ℤ) : ℚ),
               ((jsRound ((h : ℚ) * (m : ℚ) / (w : ℚ)) : ℤ) : ℚ)) := by
          simp [calculateDimensions, jsTruthy, ht, hA, hmne]
        refine ⟨fun hc _ => absurd hc (Option.some_ne_none m), ?_, by simp, ?_, hex⟩
        · intro m'' hm''
          have he : m = m'' := by simpa using hm''
          subst he
          rw [hdims, jsRound_intCast_q]
        · refine ⟨(m : ℚ) / (w : ℚ), div_pos hmq hwq, ?_, ?_⟩
          · rw [hdims, div_mul_cancel₀ _ hwq.ne']
            exact abs_jsRound_sub_le _
          · rw [hdims]
            rw [show (m : ℚ) / (w : ℚ) * (h : ℚ) = (h : ℚ) * (m : ℚ) / (w : ℚ)
              from by ring]
            exact abs_jsRound_sub_le _
      · have hdims : calculateDimensions (w : ℚ) (h : ℚ)
            ((some m).map fun m => (m : ℚ))
            ((none : Option ℤ).map fun m => (m : ℚ)) = ((w : ℚ), (h : ℚ)) := by
          simp [calculateDimensions, jsTruthy, ht, hA, hmne, jsRound_intCast_q]
        refine ⟨fun hc _ => absurd hc (Option.some_ne_none m), ?_, by simp,
          ⟨1, one_pos, ?_, ?_⟩, hex⟩
        · intro m'' hm''
          have he : m = m'' := by simpa using hm''
          subst he
          rw [hdims]
          exact not_lt.mp hA
        · rw [hdims]
          norm_num
        · rw [hdims]
          norm_num
    · have hm' : 0 < m' := hmH m' rfl
      have hm'ne : m' ≠ 0 := hm'.ne'
      have hm'q : (0 : ℚ) < (m' : ℚ) := by exact_mod_cast hm'
      have ht' : jsTruthy (some (m' : ℚ)) = true := jsTruthy_pos hm'
      by_cases hA : (w : ℚ) > (m : ℚ)
      · by_cases hB : (h : ℚ) * (m : ℚ) / (w : ℚ) > (m' : ℚ)
        · have hsimp : (m : ℚ) * (m' : ℚ) / ((h : ℚ) * (m : ℚ) / (w : ℚ))
              = (w : ℚ) * (m' : ℚ) / (h : ℚ) := by
            field_simp
            ring
          have hdims : calculateDimensions (w : ℚ) (h : ℚ)
              ((some m).map fun m => (m : ℚ)) ((some m').map fun m => (m : ℚ))
              = (((jsRound ((w : ℚ) * (m' : ℚ) / (h : ℚ)) : ℤ) : ℚ),
                 ((jsRound ((m' : ℚ)) : ℤ) : ℚ)) := by
            rw [show (((jsRound ((w : ℚ) * (m' : ℚ) / (h : ℚ)) : ℤ) : ℚ),
                 ((jsRound ((m' : ℚ)) : ℤ) : ℚ))
              = (((jsRound ((m : ℚ) * (m' : ℚ) / ((h : ℚ) * (m : ℚ) / (w : ℚ))) : ℤ) : ℚ),
                 ((jsRound ((m' : ℚ)) : ℤ) : ℚ)) from by rw [hsimp]]
            simp [calculateDimensions, jsTruthy, ht, ht', hA, hB, hmne, hm'ne]
          have hBlt : (m' : ℚ) * (w : ℚ) < (h : ℚ) * (m : ℚ) := (lt_div_iff₀ hwq).mp hB
          refine ⟨fun hc _ => absurd hc (Option.some_ne_none m), ?_, ?_, ?_, hex⟩
          · intro m'' hm''
            have he : m = m'' := by simpa using hm''
            subst he
            rw [hdims]
            apply jsRound_cast_le
            rw [div_le_iff₀ hhq]
            linarith
          · intro m'' hm''
            have he : m' = m'' := by simpa using hm''
            subst he
            rw [hdims, jsRound_intCast_q]
          · refine ⟨(m' : ℚ) / (h : ℚ), div_pos hm'q hhq, ?_, ?_⟩
            · rw [hdims]
              rw [show (m' : ℚ) / (h : ℚ) * (w : ℚ) = (w : ℚ) * (m' : ℚ) / (h : ℚ)
                from by ring]
              exact abs_jsRound_sub_le _
            · rw [hdims, div_mul_cancel₀ _ hhq.ne']
              exact abs_jsRound_sub_le _
        · have hdims : calculateDimensions (w : ℚ) (h : ℚ)
              ((some m).map fun m => (m : ℚ)) ((some m').map fun m => (m : ℚ))
              = (((jsRound ((m : ℚ)) : ℤ) : ℚ),
                 ((jsRound ((h : ℚ) * (m : ℚ) / (w : ℚ)) : ℤ) : ℚ)) := by
            simp [calculateDimensions, jsTruthy, ht, ht', hA, hB, hmne, hm'ne]
          refine ⟨fun hc _ => absurd hc (Option.some_ne_none m), ?_, ?_, ?_, hex⟩
          · intro m'' hm''
            have he : m = m'' := by simpa using hm''
            subst he
            rw [hdims, jsRound_intCast_q]
          · intro m'' hm''
            have he : m' = m'' := by simpa using hm''
            subst he
            rw [hdims]
            exact jsRound_cast_le (not_lt.mp hB)
          · refine ⟨(m : ℚ) / (w : ℚ), div_pos hmq hwq, ?_, ?_⟩
            · rw [hdims, div_mul_cancel₀ _ hwq.ne']
              exact abs_jsRound_sub_le _
            · rw [hdims]
              rw [show (m : ℚ) / (w : ℚ) * (h : ℚ) = (h : ℚ) * (m : ℚ) / (w : ℚ)
                from by ring]
              exact abs_jsRound_sub_le _
      · by_cases hB : (h : ℚ) > (m' : ℚ)
        · have hdims : calculateDimensions (w : ℚ) (h : ℚ)
              ((some m).map fun m => (m : ℚ)) ((some m').map fun m => (m : ℚ))
              = (((jsRound ((w : ℚ) * (m' : ℚ) / (h : ℚ)) : ℤ) : ℚ),
                 ((jsRound ((m' : ℚ)) : ℤ) : ℚ)) := by
            simp [calculateDimensions, jsTruthy, ht, ht', hA, hB, hmne, hm'ne]
          refine ⟨fun hc _ => absurd hc (Option.some_ne_none m), ?_, ?_, ?_, hex⟩
          · intro m'' hm''
            have he : m = m'' := by simpa using hm''
            subst he
            rw [hdims]
            apply jsRound_cast_le
            have h1 : (w : ℚ) * (m' : ℚ) / (h : ℚ) ≤ (w : ℚ) := by
              rw [div_le_iff₀ hhq]
              have := mul_le_mul_of_nonneg_left hB.le hwq.le
              linarith
            exact le_trans h1 (not_lt.mp hA)
          · intro m'' hm''
            have he : m' = m'' := by simpa using hm''
            subst he
            rw [hdims, jsRound_intCast_q]
          · refine ⟨(m' : ℚ) / (h : ℚ), div_pos hm'q hhq, ?_, ?_⟩
            · rw [hdims]
              rw [show (m' : ℚ) / (h : ℚ) * (w : ℚ) = (w : ℚ) * (m' : ℚ) / (h : ℚ)
                from by ring]
              exact abs_jsRound_sub_le _
            · rw [hdims, div_mul_cancel₀ _ hhq.ne']
              exact abs_jsRound_sub_le _
        · have hdims : calculateDimensions (w : ℚ) (h : ℚ)
              ((some m).map fun m => (m : ℚ)) ((some m').map fun m => (m : ℚ))
              = ((w : ℚ), (h : ℚ)) := by
            simp [calculateDimensions, jsTruthy, ht, ht', hA, hB, hmne, hm'ne, jsRound_intCast_q]
          refine ⟨fun hc _ => absurd hc (Option.some_ne_none m), ?_, ?_,
            ⟨1, one_pos, ?_, ?_⟩, hex⟩
          · intro m'' hm''
            have he : m = m'' := by simpa using hm''
            subst he
            rw [hdims]
            exact not_lt.mp hA
          · intro m'' hm''
            have he : m' = m'' := by simpa using hm''
            subst he
            rw [hdims]
            exact not_lt.mp hB
          · rw [hdims]
            norm_num
          · rw [hdims]
            norm_num

/-- Witness for `calculateDimensions_law`: the 800×400 input with
`maxWidth = 200`. -/
theorem calculateDimensions_law_witness :
    ∃ s : ℚ, 0 < s ∧
      |(calculateDimensions ((800 : ℤ) : ℚ) ((400 : ℤ) : ℚ)
          ((some (200 : ℤ)).map fun m => (m : ℚ))
          ((none : Option ℤ).map fun m => (m : ℚ))).1 - s * ((800 : ℤ) : ℚ)| ≤ 1 / 2 ∧
      |(calculateDimensions ((800 : ℤ) : ℚ) ((400 : ℤ) : ℚ)
          ((some (200 : ℤ)).map fun m => (m : ℚ))
          ((none : Option ℤ).map fun m => (m : ℚ))).2 - s * ((400 : ℤ) : ℚ)| ≤ 1 / 2 :=
  (calculateDimensions_law 800 400 (some 200) none (by norm_num) (by norm_num)
    (by simp) (by simp)).2.2.2.1

/-- Whenever the `tasks` map is non-empty, `getAvailableWorker` returns
`null`: the filter predicate ignores the task, so `busyTasks` is the whole
map for every worker in the pool. -/
theorem tasks_nonempty_no_available (s : PoolState) (h : s.tasks ≠ []) :
    getAvailableWorker s = none := by
  unfold getAvailableWorker
  rw [List.find?_eq_none]
  intro w hw
  have hany : (s.workers.any (fun x => x == w)) = true :=
    List.any_eq_true.mpr ⟨w, hw, by simp⟩
  simp only [hany, List.filter_true, beq_iff_eq]
  simpa [List.length_eq_zero] using h

/-- **C2**: a job parked by the queueing branch of `compressImage` (its task
registered but never posted to a worker) is never dispatched by any
subsequent sequence of drain-loop polls and terminal messages of other
dispatched tasks: its own pending entry keeps `getAvailableWorker` at `null`
forever, so the drain loop never fires, the job's promise never settles, and
the batch promise awaiting it in `compressImages` never resolves — refuting
the claim that every job, including queued ones, eventually completes or
fails and the batch settles fully. -/
theorem queued_job_starvation (qid : String) :
    ∀ (script : List PoolAction) (s : PoolState), QueuedUndispatched qid s →
      (poolRun s script).2 = [] ∧ QueuedUndispatched qid (poolRun s script).1 := by
  intro script
  induction script with
  | nil =>
    intro s hs
    exact ⟨rfl, hs⟩
  | cons a rest ih =>
    intro s hs
    have htasks : s.tasks ≠ [] := by
      obtain ⟨_, ⟨t, ht, _⟩, _⟩ := hs
      exact List.ne_nil_of_mem ht
    cases a with
    | poll =>
      have hnone := tasks_nonempty_no_available s htasks
      have hstep : poolStep s .poll = (s, none) := by
        simp [poolStep, processQueueStep, hnone]
      have hrest := ih s hs
      constructor
      · simp [poolRun, hstep, hrest.1]
      · simpa [poolRun, hstep] using hrest.2
    | complete id =>
      by_cases hguard :
          (s.tasks.any fun t => t.id == id && t.assignedWorker.isSome) = true
      · have hstep : poolStep s (.complete id) = (completeTask s id, none) := by
          simp [poolStep, hguard]
        have hs' : QueuedUndispatched qid (completeTask s id) := by
          obtain ⟨hq, ⟨t, ht, htid, hta⟩, hall⟩ := hs
          have hid : id ≠ qid := by
            intro e
            subst e
            obtain ⟨u, hu, hprop⟩ := List.any_eq_true.mp hguard
            simp only [Bool.and_eq_true, beq_iff_eq, Option.isSome_iff_exists] at hprop
            obtain ⟨huid, w, hw⟩ := hprop
            rw [hall u hu huid] at hw
            exact Option.noConfusion hw
          refine ⟨hq, ⟨t, ?_, htid, hta⟩, ?_⟩
          · refine List.mem_filter.mpr ⟨ht, ?_⟩
            simp [htid, Ne.symm hid]
          · intro u hu huid
            exact hall u (List.mem_filter.mp hu).1 huid
        have hrest := ih _ hs'
        constructor
        · simp [poolRun, hstep, hrest.1]
        · simpa [poolRun, hstep] using hrest.2
      · have hguard' :
            (s.tasks.any fun t => t.id == id && t.assignedWorker.isSome) = false := by
          simpa using hguard
        have hstep : poolStep s (.complete id) = (s, none) := by
          simp [poolStep, hguard']
        have hrest := ih s hs
        constructor
        · simp [poolRun, hstep, hrest.1]
        · simpa [poolRun, hstep] using hrest.2

/-- Witness for `queued_job_starvation`: two workers, job `"q"` queued with
its task registered, a schedule of polls and a (blocked) terminal message. -/
theorem queued_job_starvation_witness :
    (poolRun ⟨[0, 1], [⟨"q", none⟩], ["q"]⟩ [.poll, .complete "q", .poll]).2 = [] ∧
      QueuedUndispatched "q"
        (poolRun ⟨[0, 1], [⟨"q", none⟩], ["q"]⟩ [.poll, .complete "q", .poll]).1 :=
  queued_job_starvation "q" [.poll, .complete "q", .poll] _ (by decide)

/-- **C8, counterexample**: when the WASM path fails at the encode stage
(having already emitted progress up to 80) and the canvas fallback then runs,
the fallback restarts its milestones at 15, so the delivered percentage
sequence `5, 10, 15, 25, 35, 45, 60, 70, 80, 15, …` is not non-decreasing,
refuting the claim's "including the case where the WASM path fails partway
through". -/
theorem compress_progress_counterexample :
    ¬ List.Chain' (· ≤ ·) (compress defaultCompressorOptions
        { codecLoads := true, decodeOk := true, encodeOk := false, convertOk := true,
          imgWidth := 100, imgHeight := 100, wasmEncodedSize := 10, canvasEncodedSize := 20 }
        1000
        { quality := 80, maxWidth := none, maxHeight := none,
          format := "webp", removeMetadata := false }).1 := by
  have hW : shouldUseWASM defaultCompressorOptions 1000
      { quality := 80, maxWidth := none, maxHeight := none,
        format := "webp", removeMetadata := false } = true := by decide
  have hsup : (getCodecName "webp").isSome = true := by decide
  have hfb : defaultCompressorOptions.fallbackToCanvas = true := rfl
  norm_num [compress, compressWithWASM, compressWithCanvas, hW, hsup, hfb,
    List.chain'_cons]

/-- **C8, amended**: within one `compress` invocation the progress sequence
ends at 100 whenever the call succeeds, and it is non-decreasing whenever the
canvas fallback does not run after a partial WASM attempt — i.e. unless the
WASM path was entered with a loadable codec and then failed at decode or
encode with fallback enabled, in which case the sequence drops back to the
fallback's opening milestone 15. -/
theorem compress_progress_monotone (opts : SmartCompressorOptions)
    (env : CompressEnv) (byteLength : Nat) (settings : CompressionSettings)
    (h : shouldUseWASM opts byteLength settings = true →
        opts.fallbackToCanvas = true → env.codecLoads = true →
        env.decodeOk = true ∧ env.encodeOk = true) :
    (∀ r, (compress opts env byteLength settings).2 = .ok r →
      (compress opts env byteLength settings).1.getLast? = some 100) ∧
    List.Chain' (· ≤ ·) (compress opts env byteLength settings).1 := by
  obtain ⟨cl, dk, ek, cv, iw, ihh, ws, cs⟩ := env
  obtain ⟨pw, ep, ms, fb⟩ := opts
  by_cases hW : shouldUseWASM ⟨pw, ep, ms, fb⟩ byteLength settings = true
  · have hsup : (getCodecName settings.format).isSome = true :=
      shouldUseWASM_supported hW
    cases cl <;> cases dk <;> cases ek <;> cases fb <;> cases cv <;>
      first
        | exact absurd (h hW rfl rfl).1 Bool.false_ne_true
        | exact absurd (h hW rfl rfl).2 Bool.false_ne_true
        | (refine ⟨fun r hr => ?_, ?_⟩
           · simp [compress, compressWithWASM, compressWithCanvas, hW, hsup] at hr ⊢
             try decide
           · norm_num [compress, compressWithWASM, compressWithCanvas, hW, hsup,
               List.chain'_cons])
  · have hWf : shouldUseWASM ⟨pw, ep, ms, fb⟩ byteLength settings = false := by
      revert hW
      cases shouldUseWASM ⟨pw, ep, ms, fb⟩ byteLength settings <;> simp
    cases dk <;> cases cv <;>
      (refine ⟨fun r hr => ?_, ?_⟩
       · simp [compress, compressWithCanvas, hWf] at hr ⊢
         try decide
       · norm_num [compress, compressWithCanvas, hWf, List.chain'_cons])

/-- Witness for `compress_progress_monotone`: every stage succeeding, the
default options, a webp request. -/
theorem compress_progress_monotone_witness :
    List.Chain' (· ≤ ·) (compress defaultCompressorOptions
        { codecLoads := true, decodeOk := true, encodeOk := true, convertOk := true,
          imgWidth := 100, imgHeight := 100, wasmEncodedSize := 10, canvasEncodedSize := 20 }
        1000
        { quality := 80, maxWidth := none, maxHeight := none,
          format := "webp", removeMetadata := false }).1 :=
  (compress_progress_monotone _ _ _ _ (fun _ _ _ => ⟨rfl, rfl⟩)).2

end ImgCompress
